import Mathlib

/-!
Shallow embedding of the face-controlled game's pose/gesture pipeline.

The embedding covers:
* `config.py`      : the tuning constants used by the control loop;
* `input_state.py` : the `InputState` dataclass with its movement-arming
  helper and the two timed hold-gesture machines;
* `face_controller.py` : the `FaceController` per-frame pipeline
  (smoothing windows, calibration baselines, directional intent filter,
  blink classification) with the external geometry (OpenCV PnP solve,
  MediaPipe landmarks, eye-aspect-ratio norms) abstracted as per-frame
  inputs;
* `main.py`        : the movement block of the control loop that arms,
  executes and consumes cursor moves.

Real-valued quantities (angles, timestamps, eye ratios) are embedded as
rationals; Python ints are embedded as `Int` (or `Nat` for the counters
that are only ever incremented from zero and reset).
-/

/-- Python's modulo on reals for a positive divisor:
a % b = a - b * floor (a / b). Used by the angle-wrapping helpers. -/
def pymod (a b : ℚ) : ℚ := a - b * (⌊a / b⌋ : ℤ)

/-- Embeds the yaw wrap applied inline in head_pose_pnp (face_controller.py
line 104): (deg + 180.0) % 360.0 - 180.0. -/
def yaw_wrap (deg : ℚ) : ℚ := pymod (deg + 180) 360 - 180

/-- Embeds wrap_human_angle (face_controller.py lines 39-48): wrap into the
360-degree range and then fold values beyond 90 back by 180. -/
def wrap_human_angle (deg : ℚ) : ℚ :=
  let d := pymod (deg + 180) 360 - 180
  if 90 < d then d - 180
  else if d < -90 then d + 180
  else d

/-- Embeds head_pose_pnp (face_controller.py lines 51-107). The two-stage
cv2.solvePnP and the RQ decomposition are external numerics; their
per-frame outcome is the input: none when either solve step fails,
otherwise the raw (pitch, yaw, roll) Euler angles. The function applies
the repository's angle wrapping (lines 103-105) to the raw angles. -/
def head_pose_pnp (solver : Option (ℚ × ℚ × ℚ)) : Option (ℚ × ℚ × ℚ) :=
  match solver with
  | none => none
  | some (pitch, yaw, roll) =>
      some (wrap_human_angle pitch, yaw_wrap yaw, wrap_human_angle roll)

/-! Configuration constants, from config.py and FaceController.__init__. -/

def NEUTRAL_FRAMES_REQUIRED : ℕ := 2

def PLACE_HOLD_SECONDS : ℚ := 35 / 100

def RESET_HOLD_SECONDS : ℚ := 3

def INVERT_X : Bool := true

def YAW_TH : ℚ := 18

def PITCH_TH : ℚ := 20

def PITCH_DEADZONE : ℚ := 10

def INTENT_FRAMES : ℕ := 3

def BLINK_DROP : ℚ := 72 / 100

/-- Arithmetic mean of a list of rationals, embedding np.mean on the
controller's history deques. -/
def mean (l : List ℚ) : ℚ := l.sum / l.length

/-- Appending one sample to a deque with maxlen cap: the new sample goes on
the right and the oldest samples are discarded once the capacity is
exceeded. -/
def pushWindow (cap : ℕ) (h : List ℚ) (v : ℚ) : List ℚ :=
  let h' := h ++ [v]
  if cap < h'.length then h'.drop (h'.length - cap) else h'

/-- Contents of a capacity-cap smoothing window after pushing a whole
sequence of samples, starting from the empty deque. -/
def windowOf (cap : ℕ) (xs : List ℚ) : List ℚ :=
  xs.foldl (pushWindow cap) []

/-- The mutable state of FaceController (face_controller.py lines 129-154):
five smoothing deques, five calibration baselines (the eye baselines start
unset), and the per-axis intent-filter run counters and last values. -/
structure FaceState where
  yaw_hist : List ℚ := []
  pitch_hist : List ℚ := []
  roll_hist : List ℚ := []
  earL_hist : List ℚ := []
  earR_hist : List ℚ := []
  baseline_earL : Option ℚ := none
  baseline_earR : Option ℚ := none
  baseline_yaw : ℚ := 0
  baseline_pitch : ℚ := 0
  baseline_roll : ℚ := 0
  mx_run : ℕ := 0
  my_run : ℕ := 0
  mx_last : ℤ := 0
  my_last : ℤ := 0
deriving DecidableEq

/-- Embeds FaceController.calibrate (face_controller.py lines 159-175):
capture the mean of every nonempty history window as the new baseline and
reset the intent-filter state. -/
def calibrate (s : FaceState) : FaceState :=
  { s with
    baseline_earL :=
      if 0 < s.earL_hist.length then some (mean s.earL_hist) else s.baseline_earL
    baseline_earR :=
      if 0 < s.earR_hist.length then some (mean s.earR_hist) else s.baseline_earR
    baseline_yaw :=
      if 0 < s.yaw_hist.length then mean s.yaw_hist else s.baseline_yaw
    baseline_pitch :=
      if 0 < s.pitch_hist.length then mean s.pitch_hist else s.baseline_pitch
    baseline_roll :=
      if 0 < s.roll_hist.length then mean s.roll_hist else s.baseline_roll
    mx_run := 0
    my_run := 0
    mx_last := 0
    my_last := 0 }

/-- Embeds FaceController._apply_intent_filter (face_controller.py lines
177-205): per axis, a zero raw value resets the run counter and last
value; a raw value equal to the stored last value extends the run; a new
nonzero value restarts the run at 1; the raw value is emitted only once
the run reaches INTENT_FRAMES. Returns the updated state and the pair
(mx, my) of effective moves. -/
def apply_intent_filter (s : FaceState) (raw_mx raw_my : ℤ) : FaceState × ℤ × ℤ :=
  let xr : ℕ × ℤ × ℤ :=
    if raw_mx = 0 then (0, 0, 0)
    else if raw_mx = s.mx_last then
      (s.mx_run + 1, s.mx_last, if INTENT_FRAMES ≤ s.mx_run + 1 then raw_mx else 0)
    else
      (1, raw_mx, if INTENT_FRAMES ≤ 1 then raw_mx else 0)
  let yr : ℕ × ℤ × ℤ :=
    if raw_my = 0 then (0, 0, 0)
    else if raw_my = s.my_last then
      (s.my_run + 1, s.my_last, if INTENT_FRAMES ≤ s.my_run + 1 then raw_my else 0)
    else
      (1, raw_my, if INTENT_FRAMES ≤ 1 then raw_my else 0)
  ({ s with mx_run := xr.1, mx_last := xr.2.1, my_run := yr.1, my_last := yr.2.1 },
   xr.2.2, yr.2.2)

/-- One axis of the intent filter: given the axis's (run, last) state and a
raw input, produce the new (run, last) state and the emitted move. The
two axis blocks of apply_intent_filter are both instances of this step. -/
def axis_step (run : ℕ) (last : ℤ) (raw : ℤ) : ℕ × ℤ × ℤ :=
  if raw = 0 then (0, 0, 0)
  else if raw = last then
    (run + 1, last, if INTENT_FRAMES ≤ run + 1 then raw else 0)
  else
    (1, raw, if INTENT_FRAMES ≤ 1 then raw else 0)

/-- Iterated axis_step over a list of raw inputs, collecting the emitted
moves. -/
def axis_run : ℕ → ℤ → List ℤ → (ℕ × ℤ) × List ℤ
  | run, last, [] => ((run, last), [])
  | run, last, r :: rs =>
      let st := axis_step run last r
      let rest := axis_run st.1 st.2.1 rs
      (rest.1, st.2.2 :: rest.2)

/-- Iterated apply_intent_filter over a list of (raw_mx, raw_my) pairs,
collecting the emitted (mx, my) pairs. -/
def filter_run : FaceState → List (ℤ × ℤ) → FaceState × List (ℤ × ℤ)
  | s, [] => (s, [])
  | s, p :: ps =>
      let r := apply_intent_filter s p.1 p.2
      let rest := filter_run r.1 ps
      (rest.1, r.2 :: rest.2)

/-- The per-frame output record of FaceController.read_actions
(face_controller.py lines 221-227). -/
structure Actions where
  move_x : ℤ
  move_y : ℤ
  yaw : ℚ
  pitch : ℚ
  roll : ℚ
  left_eye_closed : Bool
  right_eye_closed : Bool
  face_found : Bool
deriving DecidableEq

/-- The neutral output record built at the top of read_actions. -/
def neutralActions : Actions :=
  { move_x := 0, move_y := 0, yaw := 0, pitch := 0, roll := 0,
    left_eye_closed := false, right_eye_closed := false, face_found := false }

/-- Per-frame input to read_actions, abstracting the external camera and
landmark detector: the camera read can fail; the detector can report no
face; on a face frame the external geometry yields the raw solver outcome
for head_pose_pnp and the two eye-aspect ratios computed by eye_ear. -/
inductive Detection where
  | fail : Detection
  | noFace : Detection
  | face (solver : Option (ℚ × ℚ × ℚ)) (earL earR : ℚ) : Detection
deriving DecidableEq

/-- Embeds FaceController.read_actions (face_controller.py lines 207-283):
none on camera failure; the neutral record with no state change when no
face is found; otherwise the pose block (smoothing pushes, baseline
deltas, raw-threshold moves, intent filter) runs only when the pose solve
succeeded, and the eye block (EAR pushes, smoothed ratios, blink
classification against the calibrated baselines) always runs. -/
def read_actions (s : FaceState) (d : Detection) : Option (FaceState × Actions) :=
  match d with
  | .fail => none
  | .noFace => some (s, neutralActions)
  | .face solver earL earR =>
      let a0 : Actions := { neutralActions with face_found := true }
      let step1 : FaceState × Actions :=
        match head_pose_pnp solver with
        | none => (s, a0)
        | some (pitch, yaw, roll) =>
            let pitch_hist := pushWindow 9 s.pitch_hist pitch
            let yaw_hist := pushWindow 9 s.yaw_hist yaw
            let roll_hist := pushWindow 9 s.roll_hist roll
            let pitch_s := mean pitch_hist - s.baseline_pitch
            let yaw_s := mean yaw_hist - s.baseline_yaw
            let roll_s := mean roll_hist - s.baseline_roll
            let raw_mx : ℤ :=
              if yaw_s < -YAW_TH then -1 else if YAW_TH < yaw_s then 1 else 0
            let raw_mx : ℤ := if INVERT_X then -raw_mx else raw_mx
            let raw_my : ℤ :=
              if pitch_s < -PITCH_TH then 1
              else if PITCH_TH < pitch_s then -1
              else if |pitch_s| < PITCH_DEADZONE then 0
              else 0
            let s' := { s with pitch_hist := pitch_hist, yaw_hist := yaw_hist,
                               roll_hist := roll_hist }
            let fr := apply_intent_filter s' raw_mx raw_my
            (fr.1, { a0 with pitch := pitch_s, yaw := yaw_s, roll := roll_s,
                             move_x := fr.2.1, move_y := fr.2.2 })
      let s1 := step1.1
      let a1 := step1.2
      let earL_hist := pushWindow 5 s1.earL_hist earL
      let earR_hist := pushWindow 5 s1.earR_hist earR
      let earL_s := mean earL_hist
      let earR_s := mean earR_hist
      let s2 := { s1 with earL_hist := earL_hist, earR_hist := earR_hist }
      let lc : Bool :=
        match s2.baseline_earL with
        | none => a1.left_eye_closed
        | some b => decide (earL_s < b * BLINK_DROP)
      let rc : Bool :=
        match s2.baseline_earR with
        | none => a1.right_eye_closed
        | some b => decide (earR_s < b * BLINK_DROP)
      some (s2, { a1 with left_eye_closed := lc, right_eye_closed := rc })

/-- Iterated read_actions over a list of frames: a failed camera read
leaves the state unchanged and yields no record, any other frame advances
the state and yields its record. -/
def read_run : FaceState → List Detection → FaceState × List (Option Actions)
  | s, [] => (s, [])
  | s, d :: ds =>
      match read_actions s d with
      | none =>
          let rest := read_run s ds
          (rest.1, none :: rest.2)
      | some (s', a) =>
          let rest := read_run s' ds
          (rest.1, some a :: rest.2)

/-- The mutable control-loop state of input_state.py (InputState dataclass,
lines 5-20), with the dataclass defaults. -/
structure InputState where
  last_face_seen_time : ℚ := 0
  move_armed : Bool := true
  neutral_run : ℕ := 0
  both_hold_start : Option ℚ := none
  both_hold_armed : Bool := true
  right_only_hold_start : Option ℚ := none
  right_only_hold_armed : Bool := true
deriving DecidableEq

/-- Embeds InputState.update_neutral_and_arm (input_state.py lines 33-39):
a fully neutral frame extends the neutral run and re-arms movement once
the run reaches the required length; any other frame resets the run. -/
def update_neutral_and_arm (s : InputState) (mx my : ℤ)
    (neutral_frames_required : ℕ) : InputState :=
  if mx = 0 ∧ my = 0 then
    let r := s.neutral_run + 1
    { s with neutral_run := r,
             move_armed := if neutral_frames_required ≤ r then true else s.move_armed }
  else
    { s with neutral_run := 0 }

/-- Embeds InputState.consume_move_arm_if_moved (input_state.py lines
41-43). -/
def consume_move_arm_if_moved (s : InputState) (moved : Bool) : InputState :=
  if moved then { s with move_armed := false } else s

/-- Embeds InputState.handle_right_only_hold (input_state.py lines 46-63):
while right-only is held, record the hold start on entry and fire once
when the elapsed time reaches the threshold; otherwise reset the hold. -/
def handle_right_only_hold (s : InputState) (now : ℚ)
    (right_closed left_closed : Bool) (reset_hold_seconds : ℚ) :
    InputState × Bool :=
  if right_closed = true ∧ left_closed = false then
    let start := s.right_only_hold_start.getD now
    let armed := if s.right_only_hold_start = none then true
                 else s.right_only_hold_armed
    if reset_hold_seconds ≤ now - start ∧ armed = true then
      ({ s with right_only_hold_start := some start,
                right_only_hold_armed := false }, true)
    else
      ({ s with right_only_hold_start := some start,
                right_only_hold_armed := armed }, false)
  else
    ({ s with right_only_hold_start := none,
              right_only_hold_armed := true }, false)

/-- Embeds InputState.handle_both_hold (input_state.py lines 65-88): if the
game is over the hold is reset and never fires; otherwise, while both eyes
are held closed, record the hold start on entry and fire once when the
elapsed time reaches the threshold; otherwise reset the hold. -/
def handle_both_hold (s : InputState) (now : ℚ)
    (right_closed left_closed : Bool) (place_hold_seconds : ℚ)
    (game_over : Bool) : InputState × Bool :=
  if game_over = true then
    ({ s with both_hold_start := none, both_hold_armed := true }, false)
  else if left_closed = true ∧ right_closed = true then
    let start := s.both_hold_start.getD now
    let armed := if s.both_hold_start = none then true else s.both_hold_armed
    if place_hold_seconds ≤ now - start ∧ armed = true then
      ({ s with both_hold_start := some start, both_hold_armed := false }, true)
    else
      ({ s with both_hold_start := some start, both_hold_armed := armed }, false)
  else
    ({ s with both_hold_start := none, both_hold_armed := true }, false)

/-- Iterated handle_right_only_hold over a list of timestamps, with the
right-only condition held continuously true, collecting the fire flags. -/
def right_hold_run (θ : ℚ) : InputState → List ℚ → InputState × List Bool
  | s, [] => (s, [])
  | s, t :: ts =>
      let p := handle_right_only_hold s t true false θ
      let rest := right_hold_run θ p.1 ts
      (rest.1, p.2 :: rest.2)

/-- Iterated handle_both_hold over a list of timestamps, with both eyes
held continuously closed and the game not over, collecting the fire
flags. -/
def both_hold_run (θ : ℚ) : InputState → List ℚ → InputState × List Bool
  | s, [] => (s, [])
  | s, t :: ts =>
      let p := handle_both_hold s t true true θ false
      let rest := both_hold_run θ p.1 ts
      (rest.1, p.2 :: rest.2)

/-- Embeds the cursor-movement block of the control loop (main.py lines
200-222): update the neutral run and re-arm, execute a move when armed and
a direction is present (the cursor update itself is external game state),
and consume the arm if a move was executed. Returns the new state and
whether a move was executed this frame. -/
def loop_move_step (s : InputState) (mx my : ℤ) : InputState × Bool :=
  let s1 := update_neutral_and_arm s mx my NEUTRAL_FRAMES_REQUIRED
  let moved : Bool := s1.move_armed &&
    (decide (mx = -1) || decide (mx = 1) || decide (my = 1) || decide (my = -1))
  (consume_move_arm_if_moved s1 moved, moved)

/-- Iterated loop_move_step over a list of per-frame (mx, my) deltas,
collecting the executed-move flags. -/
def loop_move_run : InputState → List (ℤ × ℤ) → InputState × List Bool
  | s, [] => (s, [])
  | s, p :: ps =>
      let r := loop_move_step s p.1 p.2
      let rest := loop_move_run r.1 ps
      (rest.1, r.2 :: rest.2)

/-- Two consecutive neutral frames occur in the delta sequence P. -/
def twoNeutral (P : List (ℤ × ℤ)) : Prop :=
  ∃ j, j + 1 < P.length ∧ P.getD j (1, 1) = (0, 0) ∧ P.getD (j + 1) (1, 1) = (0, 0)

/-! Helper lemmas. -/

lemma pymod_nonneg (a b : ℚ) (hb : 0 < b) : 0 ≤ pymod a b := by
  have h1 : ((⌊a / b⌋ : ℤ) : ℚ) ≤ a / b := Int.floor_le _
  have h2 : ((⌊a / b⌋ : ℤ) : ℚ) * b ≤ a / b * b := mul_le_mul_of_nonneg_right h1 hb.le
  rw [div_mul_cancel₀ _ hb.ne'] at h2
  unfold pymod
  linarith

lemma pymod_lt (a b : ℚ) (hb : 0 < b) : pymod a b < b := by
  have h1 : a / b < (⌊a / b⌋ : ℤ) + 1 := Int.lt_floor_add_one _
  have h2 : a / b * b < (((⌊a / b⌋ : ℤ) : ℚ) + 1) * b := by
    exact mul_lt_mul_of_pos_right h1 hb
  rw [div_mul_cancel₀ _ hb.ne'] at h2
  unfold pymod
  nlinarith

lemma pushWindow_eq_drop (cap : ℕ) (h : List ℚ) (v : ℚ) :
    pushWindow cap h v = (h ++ [v]).drop ((h ++ [v]).length - cap) := by
  simp only [pushWindow]
  split_ifs with hc
  · rfl
  · rw [Nat.sub_eq_zero_of_le (le_of_not_lt hc), List.drop_zero]

lemma drop_sub_append (m r : List ℚ) (c : ℕ) :
    (m.drop (m.length - c) ++ r).drop ((m.drop (m.length - c) ++ r).length - c) =
      (m ++ r).drop ((m ++ r).length - c) := by
  rw [← List.drop_append_of_le_length (Nat.sub_le m.length c), List.drop_drop]
  congr 1
  have hl : (List.drop (m.length - c) (m ++ r)).length =
      (m ++ r).length - (m.length - c) := List.length_drop _ _
  have hla : (m ++ r).length = m.length + r.length := List.length_append _ _
  omega

lemma foldl_pushWindow (cap : ℕ) :
    ∀ (xs w : List ℚ), w.length ≤ cap →
      xs.foldl (pushWindow cap) w = (w ++ xs).drop ((w ++ xs).length - cap) := by
  intro xs
  induction xs with
  | nil =>
      intro w hw
      simp [Nat.sub_eq_zero_of_le, hw]
  | cons x xs ih =>
      intro w hw
      have hlen : (pushWindow cap w x).length ≤ cap := by
        simp only [pushWindow]
        split_ifs with hc
        · simp
          omega
        · simpa using le_of_not_lt hc
      rw [List.foldl_cons, ih (pushWindow cap w x) hlen, pushWindow_eq_drop,
        drop_sub_append]
      simp

lemma windowOf_eq_drop (cap : ℕ) (xs : List ℚ) :
    windowOf cap xs = xs.drop (xs.length - cap) := by
  unfold windowOf
  rw [foldl_pushWindow cap xs [] (by simp)]
  simp

/-- C7: for every sequence of samples pushed into a smoothing window, the
window holds exactly the last min(number of pushes, capacity) values in
push order, with capacity 9 for the angle windows and 5 for the eye-ratio
windows, and the smoothed value is the arithmetic mean of those
contents. -/
theorem C7_smoothing_window :
    (∀ xs : List ℚ,
      windowOf 9 xs = xs.drop (xs.length - 9) ∧
      (windowOf 9 xs).length = min xs.length 9 ∧
      mean (windowOf 9 xs) = (xs.drop (xs.length - 9)).sum / (min xs.length 9 : ℕ)) ∧
    (∀ xs : List ℚ,
      windowOf 5 xs = xs.drop (xs.length - 5) ∧
      (windowOf 5 xs).length = min xs.length 5 ∧
      mean (windowOf 5 xs) = (xs.drop (xs.length - 5)).sum / (min xs.length 5 : ℕ)) ∧
    (∀ (cap : ℕ) (xs : List ℚ), windowOf cap xs = xs.drop (xs.length - cap)) := by
  have key : ∀ (cap : ℕ) (xs : List ℚ),
      windowOf cap xs = xs.drop (xs.length - cap) ∧
      (windowOf cap xs).length = min xs.length cap ∧
      mean (windowOf cap xs) = (xs.drop (xs.length - cap)).sum / (min xs.length cap : ℕ) := by
    intro cap xs
    have h := windowOf_eq_drop cap xs
    have hlen : (windowOf cap xs).length = min xs.length cap := by
      rw [h, List.length_drop]
      omega
    refine ⟨h, hlen, ?_⟩
    rw [mean, hlen, h]
  exact ⟨fun xs => key 9 xs, fun xs => key 5 xs, fun cap xs => (key cap xs).1⟩

/-- C3 counterexample: the claim puts the wrapped yaw in (-180, 180] and
the wrapped pitch/roll in (-90, 90], but at deg = 180 the yaw wrap yields
exactly -180, and at deg = -90 wrap_human_angle yields exactly -90, both
outside the claimed half-open intervals. -/
theorem C3_wrap_counterexample :
    ((-540 : ℚ) ≤ 180 ∧ (180 : ℚ) ≤ 540 ∧
      ¬((-180 : ℚ) < yaw_wrap 180 ∧ yaw_wrap 180 ≤ 180)) ∧
    ((-540 : ℚ) ≤ -90 ∧ (-90 : ℚ) ≤ 540 ∧
      ¬((-90 : ℚ) < wrap_human_angle (-90) ∧ wrap_human_angle (-90) ≤ 90)) := by
  have h1 : yaw_wrap 180 = -180 := by norm_num [yaw_wrap, pymod]
  have h2 : wrap_human_angle (-90) = -90 := by norm_num [wrap_human_angle, pymod]
  refine ⟨⟨by norm_num, by norm_num, ?_⟩, ⟨by norm_num, by norm_num, ?_⟩⟩
  · rw [h1]; norm_num
  · rw [h2]; norm_num

/-- C3 (amended): for every input angle in [-540, 540], the yaw wrap of
head_pose_pnp yields a value in the half-open interval [-180, 180), and
wrap_human_angle yields a value in the closed interval [-90, 90]. -/
theorem C3_wrap_ranges (deg : ℚ) (hlo : -540 ≤ deg) (hhi : deg ≤ 540) :
    ((-180 : ℚ) ≤ yaw_wrap deg ∧ yaw_wrap deg < 180) ∧
    ((-90 : ℚ) ≤ wrap_human_angle deg ∧ wrap_human_angle deg ≤ 90) := by
  have h0 : (0 : ℚ) ≤ pymod (deg + 180) 360 := pymod_nonneg _ _ (by norm_num)
  have h1 : pymod (deg + 180) 360 < 360 := pymod_lt _ _ (by norm_num)
  constructor
  · unfold yaw_wrap
    constructor <;> linarith
  · simp only [wrap_human_angle]
    split_ifs with ha hb <;> constructor <;> linarith

/-- C3 witness: the amended range theorem applied at deg = 0. -/
theorem C3_wrap_ranges_witness :
    ((-540 : ℚ) ≤ 0 ∧ (0 : ℚ) ≤ 540) ∧
    (((-180 : ℚ) ≤ yaw_wrap 0 ∧ yaw_wrap 0 < 180) ∧
      ((-90 : ℚ) ≤ wrap_human_angle 0 ∧ wrap_human_angle 0 ≤ 90)) :=
  ⟨⟨by norm_num, by norm_num⟩, C3_wrap_ranges 0 (by norm_num) (by norm_num)⟩

/-- C4: one calibrate call captures the mean of every nonempty history
window as the corresponding baseline, leaves a baseline unchanged when its
window is empty, resets the intent-filter run counters and last values to
zero, leaves all five smoothing windows unchanged, and is idempotent. -/
theorem C4_calibrate (s : FaceState) :
    ((calibrate s).yaw_hist = s.yaw_hist ∧
     (calibrate s).pitch_hist = s.pitch_hist ∧
     (calibrate s).roll_hist = s.roll_hist ∧
     (calibrate s).earL_hist = s.earL_hist ∧
     (calibrate s).earR_hist = s.earR_hist) ∧
    ((calibrate s).mx_run = 0 ∧ (calibrate s).my_run = 0 ∧
     (calibrate s).mx_last = 0 ∧ (calibrate s).my_last = 0) ∧
    (s.earL_hist ≠ [] → (calibrate s).baseline_earL = some (mean s.earL_hist)) ∧
    (s.earL_hist = [] → (calibrate s).baseline_earL = s.baseline_earL) ∧
    (s.earR_hist ≠ [] → (calibrate s).baseline_earR = some (mean s.earR_hist)) ∧
    (s.earR_hist = [] → (calibrate s).baseline_earR = s.baseline_earR) ∧
    (s.yaw_hist ≠ [] → (calibrate s).baseline_yaw = mean s.yaw_hist) ∧
    (s.yaw_hist = [] → (calibrate s).baseline_yaw = s.baseline_yaw) ∧
    (s.pitch_hist ≠ [] → (calibrate s).baseline_pitch = mean s.pitch_hist) ∧
    (s.pitch_hist = [] → (calibrate s).baseline_pitch = s.baseline_pitch) ∧
    (s.roll_hist ≠ [] → (calibrate s).baseline_roll = mean s.roll_hist) ∧
    (s.roll_hist = [] → (calibrate s).baseline_roll = s.baseline_roll) ∧
    calibrate (calibrate s) = calibrate s := by
  refine ⟨⟨rfl, rfl, rfl, rfl, rfl⟩, ⟨rfl, rfl, rfl, rfl⟩, ?_, ?_, ?_, ?_, ?_, ?_,
    ?_, ?_, ?_, ?_, ?_⟩
  · intro h; simp [calibrate, List.length_pos.mpr h]
  · intro h; simp [calibrate, h]
  · intro h; simp [calibrate, List.length_pos.mpr h]
  · intro h; simp [calibrate, h]
  · intro h; simp [calibrate, List.length_pos.mpr h]
  · intro h; simp [calibrate, h]
  · intro h; simp [calibrate, List.length_pos.mpr h]
  · intro h; simp [calibrate, h]
  · intro h; simp [calibrate, List.length_pos.mpr h]
  · intro h; simp [calibrate, h]
  · simp only [calibrate]
    split_ifs <;> rfl

/-- C4 witness: calibrating a controller state whose yaw window holds one
sample captures that sample as the yaw baseline. -/
theorem C4_calibrate_witness :
    ({ yaw_hist := [2] } : FaceState).yaw_hist ≠ [] ∧
    (calibrate { yaw_hist := [2] }).baseline_yaw = mean [2] := by
  have h := C4_calibrate { yaw_hist := [2] }
  exact ⟨by simp, h.2.2.2.2.2.2.1 (by simp)⟩

lemma read_run_noFace : ∀ (n : ℕ) (s : FaceState),
    read_run s (List.replicate n Detection.noFace) =
      (s, List.replicate n (some neutralActions)) := by
  intro n
  induction n with
  | zero => intro s; rfl
  | succ n ih =>
      intro s
      simp [List.replicate_succ, read_run, read_actions, ih s]

/-- C5: on a frame where the detector reports no face, read_actions
returns the neutral record (zero moves and angles, both eye flags false,
face_found false) and leaves the controller state — all five smoothing
windows, the five baselines and the intent-filter state — completely
unchanged, and this holds across any number of consecutive no-face
frames. -/
theorem C5_no_face (s : FaceState) (n : ℕ) :
    read_actions s Detection.noFace = some (s, neutralActions) ∧
    read_run s (List.replicate n Detection.noFace) =
      (s, List.replicate n (some neutralActions)) ∧
    neutralActions =
      ({ move_x := 0, move_y := 0, yaw := 0, pitch := 0, roll := 0,
         left_eye_closed := false, right_eye_closed := false,
         face_found := false } : Actions) :=
  ⟨rfl, read_run_noFace n s, rfl⟩

lemma aif_fst_earL_hist (s : FaceState) (rx ry : ℤ) :
    (apply_intent_filter s rx ry).1.earL_hist = s.earL_hist := rfl

lemma aif_fst_earR_hist (s : FaceState) (rx ry : ℤ) :
    (apply_intent_filter s rx ry).1.earR_hist = s.earR_hist := rfl

lemma aif_fst_baseline_earL (s : FaceState) (rx ry : ℤ) :
    (apply_intent_filter s rx ry).1.baseline_earL = s.baseline_earL := rfl

lemma aif_fst_baseline_earR (s : FaceState) (rx ry : ℤ) :
    (apply_intent_filter s rx ry).1.baseline_earR = s.baseline_earR := rfl

lemma read_actions_face_noPose (s : FaceState) (earL earR : ℚ) :
    read_actions s (Detection.face none earL earR) =
      some ({ s with earL_hist := pushWindow 5 s.earL_hist earL,
                     earR_hist := pushWindow 5 s.earR_hist earR },
            { move_x := 0, move_y := 0, yaw := 0, pitch := 0, roll := 0,
              left_eye_closed := s.baseline_earL.elim false
                (fun b => decide (mean (pushWindow 5 s.earL_hist earL) < b * BLINK_DROP)),
              right_eye_closed := s.baseline_earR.elim false
                (fun b => decide (mean (pushWindow 5 s.earR_hist earR) < b * BLINK_DROP)),
              face_found := true }) := by
  cases hL : s.baseline_earL <;> cases hR : s.baseline_earR <;>
    simp [read_actions, head_pose_pnp, neutralActions, hL, hR]

/-- C6: on a face frame where the two-stage pose solve yields no result,
read_actions still returns a record (no exception), with zero angles and
zero moves, changes nothing in the controller state except appending the
frame's two eye-aspect ratios to the EAR windows, and computes the
eye-closed flags from the updated smoothed ratios. -/
theorem C6_pose_solve_failure (s : FaceState) (earL earR : ℚ) :
    read_actions s (Detection.face none earL earR) =
      some ({ s with earL_hist := pushWindow 5 s.earL_hist earL,
                     earR_hist := pushWindow 5 s.earR_hist earR },
            { move_x := 0, move_y := 0, yaw := 0, pitch := 0, roll := 0,
              left_eye_closed := s.baseline_earL.elim false
                (fun b => decide (mean (pushWindow 5 s.earL_hist earL) < b * BLINK_DROP)),
              right_eye_closed := s.baseline_earR.elim false
                (fun b => decide (mean (pushWindow 5 s.earR_hist earR) < b * BLINK_DROP)),
              face_found := true }) ∧
    (s.baseline_earL.elim false
        (fun b => decide (mean (pushWindow 5 s.earL_hist earL) < b * BLINK_DROP)) = true ↔
      ∃ b, s.baseline_earL = some b ∧
        mean (pushWindow 5 s.earL_hist earL) < b * BLINK_DROP) ∧
    (s.baseline_earR.elim false
        (fun b => decide (mean (pushWindow 5 s.earR_hist earR) < b * BLINK_DROP)) = true ↔
      ∃ b, s.baseline_earR = some b ∧
        mean (pushWindow 5 s.earR_hist earR) < b * BLINK_DROP) := by
  refine ⟨read_actions_face_noPose s earL earR, ?_, ?_⟩
  · cases hL : s.baseline_earL <;> simp [hL]
  · cases hR : s.baseline_earR <;> simp [hR]

/-- C9: on every face frame, the returned left (resp. right) eye-closed
flag is true exactly when the corresponding EAR baseline is set and the
updated smoothed eye-aspect ratio is strictly below BLINK_DROP times that
baseline; with the baseline unset the flag is false. -/
theorem C9_blink_classification (s : FaceState) (solver : Option (ℚ × ℚ × ℚ))
    (earL earR : ℚ) (s' : FaceState) (a : Actions)
    (h : read_actions s (Detection.face solver earL earR) = some (s', a)) :
    (a.left_eye_closed = true ↔ ∃ b, s.baseline_earL = some b ∧
        mean (pushWindow 5 s.earL_hist earL) < b * BLINK_DROP) ∧
    (a.right_eye_closed = true ↔ ∃ b, s.baseline_earR = some b ∧
        mean (pushWindow 5 s.earR_hist earR) < b * BLINK_DROP) ∧
    (s.baseline_earL = none → a.left_eye_closed = false) ∧
    (s.baseline_earR = none → a.right_eye_closed = false) := by
  rcases solver with _ | ⟨p, y, r⟩ <;>
    cases hL : s.baseline_earL <;> cases hR : s.baseline_earR <;>
    · simp only [read_actions, head_pose_pnp, neutralActions, hL, hR,
        aif_fst_earL_hist, aif_fst_earR_hist, aif_fst_baseline_earL,
        aif_fst_baseline_earR, Option.some.injEq, Prod.mk.injEq] at h
      obtain ⟨hS, hA⟩ := h
      subst hS
      subst hA
      simp [hL, hR]

/-- C9 witness: for a freshly initialised controller, whose eye baselines
are unset, a pose-failure face frame yields both eye flags false. -/
theorem C9_blink_classification_witness :
    read_actions {} (Detection.face none 0 0) =
      some ({ earL_hist := [0], earR_hist := [0] },
            { move_x := 0, move_y := 0, yaw := 0, pitch := 0, roll := 0,
              left_eye_closed := false, right_eye_closed := false,
              face_found := true }) ∧
    (({ move_x := 0, move_y := 0, yaw := 0, pitch := 0, roll := 0,
        left_eye_closed := false, right_eye_closed := false,
        face_found := true } : Actions).left_eye_closed = true ↔
      ∃ b, ({} : FaceState).baseline_earL = some b ∧
        mean (pushWindow 5 ({} : FaceState).earL_hist 0) < b * BLINK_DROP) := by
  have hrun : read_actions {} (Detection.face none 0 0) =
      some ({ earL_hist := [0], earR_hist := [0] },
            { move_x := 0, move_y := 0, yaw := 0, pitch := 0, roll := 0,
              left_eye_closed := false, right_eye_closed := false,
              face_found := true }) := rfl
  exact ⟨hrun, (C9_blink_classification _ _ _ _ _ _ hrun).1⟩

lemma aif_eq_axis (s : FaceState) (rx ry : ℤ) :
    apply_intent_filter s rx ry =
      ({ s with mx_run := (axis_step s.mx_run s.mx_last rx).1,
                mx_last := (axis_step s.mx_run s.mx_last rx).2.1,
                my_run := (axis_step s.my_run s.my_last ry).1,
                my_last := (axis_step s.my_run s.my_last ry).2.1 },
       (axis_step s.mx_run s.mx_last rx).2.2,
       (axis_step s.my_run s.my_last ry).2.2) := rfl

lemma filter_run_fst_axis : ∀ (ps : List (ℤ × ℤ)) (s : FaceState),
    (filter_run s ps).2.map Prod.fst =
      (axis_run s.mx_run s.mx_last (ps.map Prod.fst)).2 := by
  intro ps
  induction ps with
  | nil => intro s; rfl
  | cons p ps ih =>
      intro s
      simp only [filter_run, List.map_cons, axis_run, aif_eq_axis]
      exact congrArg₂ List.cons rfl (ih _)

lemma filter_run_snd_axis : ∀ (ps : List (ℤ × ℤ)) (s : FaceState),
    (filter_run s ps).2.map Prod.snd =
      (axis_run s.my_run s.my_last (ps.map Prod.snd)).2 := by
  intro ps
  induction ps with
  | nil => intro s; rfl
  | cons p ps ih =>
      intro s
      simp only [filter_run, List.map_cons, axis_run, aif_eq_axis]
      exact congrArg₂ List.cons rfl (ih _)

lemma axis_run_saturated (v : ℤ) (hv : v ≠ 0) : ∀ (k : ℕ) (r : ℕ), 2 ≤ r →
    (axis_run r v (List.replicate k v)).2 = List.replicate k v := by
  intro k
  induction k with
  | zero => intro r _; rfl
  | succ k ih =>
      intro r hr
      rw [List.replicate_succ]
      have hc : INTENT_FRAMES ≤ r + 1 := by simp [INTENT_FRAMES]; omega
      simp [axis_run, axis_step, hv, hc, ih (r + 1) (by omega)]

lemma axis_run_two_then_other (v w : ℤ) (hv : v ≠ 0) (hw : w ≠ v) :
    (axis_run 0 0 [v, v, w]).2 = [0, 0, 0] := by
  by_cases hw0 : w = 0 <;>
    simp [axis_run, axis_step, hv, hw, hw0, INTENT_FRAMES]

lemma axis_run_fires_from_third (v : ℤ) (hv : v ≠ 0) (n : ℕ) (hn : 3 ≤ n) :
    (axis_run 0 0 (List.replicate n v)).2 =
      List.replicate 2 (0 : ℤ) ++ List.replicate (n - 2) v := by
  obtain ⟨m, rfl⟩ : ∃ m, n = m + 3 := ⟨n - 3, by omega⟩
  have h32 : m + 3 - 2 = m + 1 := by omega
  rw [h32, show m + 3 = ((m + 1) + 1) + 1 from rfl, List.replicate_succ,
    List.replicate_succ]
  simp [axis_run, axis_step, hv, INTENT_FRAMES, axis_run_saturated v hv]
  rw [List.replicate_succ]

/-- C2: over any input sequence, the directional intent filter acts per
axis exactly as the iterated axis step; from the reset state a nonzero
value held for only 2 frames followed by a different value never yields a
nonzero output, a nonzero value held for at least 3 consecutive frames is
emitted from the 3rd frame onward and suppressed before, and a raw zero
on any frame resets that axis's run counter and emits zero. -/
theorem C2_intent_filter :
    (∀ (s : FaceState) (ps : List (ℤ × ℤ)),
        (filter_run s ps).2.map Prod.fst =
          (axis_run s.mx_run s.mx_last (ps.map Prod.fst)).2 ∧
        (filter_run s ps).2.map Prod.snd =
          (axis_run s.my_run s.my_last (ps.map Prod.snd)).2) ∧
    (∀ (s : FaceState) (ps : List (ℤ × ℤ)) (v w : ℤ),
        s.mx_run = 0 → s.mx_last = 0 → v ≠ 0 → w ≠ v →
        ps.map Prod.fst = [v, v, w] →
        (filter_run s ps).2.map Prod.fst = [0, 0, 0]) ∧
    (∀ (s : FaceState) (ps : List (ℤ × ℤ)) (v w : ℤ),
        s.my_run = 0 → s.my_last = 0 → v ≠ 0 → w ≠ v →
        ps.map Prod.snd = [v, v, w] →
        (filter_run s ps).2.map Prod.snd = [0, 0, 0]) ∧
    (∀ (s : FaceState) (ps : List (ℤ × ℤ)) (v : ℤ) (n : ℕ),
        s.mx_run = 0 → s.mx_last = 0 → v ≠ 0 → 3 ≤ n →
        ps.map Prod.fst = List.replicate n v →
        (filter_run s ps).2.map Prod.fst =
          List.replicate 2 (0 : ℤ) ++ List.replicate (n - 2) v) ∧
    (∀ (s : FaceState) (ps : List (ℤ × ℤ)) (v : ℤ) (n : ℕ),
        s.my_run = 0 → s.my_last = 0 → v ≠ 0 → 3 ≤ n →
        ps.map Prod.snd = List.replicate n v →
        (filter_run s ps).2.map Prod.snd =
          List.replicate 2 (0 : ℤ) ++ List.replicate (n - 2) v) ∧
    (∀ (run : ℕ) (last : ℤ), axis_step run last 0 = (0, 0, 0)) ∧
    (∀ (s : FaceState) (ry : ℤ),
        (apply_intent_filter s 0 ry).1.mx_run = 0 ∧
        (apply_intent_filter s 0 ry).1.mx_last = 0 ∧
        (apply_intent_filter s 0 ry).2.1 = 0) ∧
    (∀ (s : FaceState) (rx : ℤ),
        (apply_intent_filter s rx 0).1.my_run = 0 ∧
        (apply_intent_filter s rx 0).1.my_last = 0 ∧
        (apply_intent_filter s rx 0).2.2 = 0) := by
  refine ⟨fun s ps => ⟨filter_run_fst_axis ps s, filter_run_snd_axis ps s⟩,
    ?_, ?_, ?_, ?_, ?_, ?_, ?_⟩
  · intro s ps v w h1 h2 hv hw hmap
    rw [filter_run_fst_axis, h1, h2, hmap, axis_run_two_then_other v w hv hw]
  · intro s ps v w h1 h2 hv hw hmap
    rw [filter_run_snd_axis, h1, h2, hmap, axis_run_two_then_other v w hv hw]
  · intro s ps v n h1 h2 hv hn hmap
    rw [filter_run_fst_axis, h1, h2, hmap, axis_run_fires_from_third v hv n hn]
  · intro s ps v n h1 h2 hv hn hmap
    rw [filter_run_snd_axis, h1, h2, hmap, axis_run_fires_from_third v hv n hn]
  · intro run last; simp [axis_step]
  · intro s ry; exact ⟨rfl, rfl, rfl⟩
  · intro s rx; exact ⟨rfl, rfl, rfl⟩

/-- C2 witness: the x axis held at +1 for three frames (with the y axis
idle) emits the move exactly on the third frame. -/
theorem C2_intent_filter_witness :
    (({} : FaceState).mx_run = 0 ∧ ({} : FaceState).mx_last = 0 ∧
      (1 : ℤ) ≠ 0 ∧ 3 ≤ 3 ∧
      ([((1 : ℤ), (0 : ℤ)), (1, 0), (1, 0)].map Prod.fst =
        List.replicate 3 (1 : ℤ))) ∧
    (filter_run {} [((1 : ℤ), (0 : ℤ)), (1, 0), (1, 0)]).2.map Prod.fst =
      List.replicate 2 (0 : ℤ) ++ List.replicate 1 (1 : ℤ) := by
  refine ⟨⟨rfl, rfl, by decide, by decide, by decide⟩, ?_⟩
  exact C2_intent_filter.2.2.2.1 {} _ 1 3 rfl rfl (by decide) (by decide) (by decide)

lemma forall_lt_cons (t c : ℚ) (ts : List ℚ) (i : ℕ) :
    (∀ j, j < i + 1 → (t :: ts).getD j 0 < c) ↔
      (t < c ∧ ∀ j, j < i → ts.getD j 0 < c) := by
  constructor
  · intro h
    refine ⟨by simpa using h 0 (Nat.succ_pos i), fun j hj => ?_⟩
    simpa using h (j + 1) (Nat.succ_lt_succ hj)
  · rintro ⟨h0, h⟩ j hj
    cases j with
    | zero => simpa using h0
    | succ j => simpa using h j (Nat.lt_of_succ_lt_succ hj)

lemma right_step_some (s : InputState) (now θ t0 : ℚ)
    (hs : s.right_only_hold_start = some t0) :
    handle_right_only_hold s now true false θ =
      if θ ≤ now - t0 ∧ s.right_only_hold_armed = true then
        ({ s with right_only_hold_start := some t0,
                  right_only_hold_armed := false }, true)
      else
        ({ s with right_only_hold_start := some t0,
                  right_only_hold_armed := s.right_only_hold_armed }, false) := by
  simp [handle_right_only_hold, hs]

lemma right_step_entry (s : InputState) (now θ : ℚ)
    (hs : s.right_only_hold_start = none) :
    handle_right_only_hold s now true false θ =
      if θ ≤ 0 then
        ({ s with right_only_hold_start := some now,
                  right_only_hold_armed := false }, true)
      else
        ({ s with right_only_hold_start := some now,
                  right_only_hold_armed := true }, false) := by
  simp [handle_right_only_hold, hs, sub_self]

lemma right_step_reset (s : InputState) (now θ : ℚ) (r l : Bool)
    (h : ¬(r = true ∧ l = false)) :
    handle_right_only_hold s now r l θ =
      ({ s with right_only_hold_start := none,
                right_only_hold_armed := true }, false) := by
  simp [handle_right_only_hold, h]

lemma right_run_out (θ t0 : ℚ) :
    ∀ (ts : List ℚ) (s : InputState), s.right_only_hold_start = some t0 →
    ∀ i, i < ts.length →
    ((right_hold_run θ s ts).2.getD i false = true ↔
      (s.right_only_hold_armed = true ∧ t0 + θ ≤ ts.getD i 0 ∧
        ∀ j, j < i → ts.getD j 0 < t0 + θ)) := by
  intro ts
  induction ts with
  | nil => intro s _ i hi; simp at hi
  | cons t ts ih =>
      intro s hs i hi
      simp only [right_hold_run]
      rw [right_step_some s t θ t0 hs]
      by_cases hc : θ ≤ t - t0 ∧ s.right_only_hold_armed = true
      · rw [if_pos hc]
        cases i with
        | zero =>
            simp only [List.getD_cons_zero]
            constructor
            · intro _
              exact ⟨hc.2, by linarith [hc.1], fun j hj => absurd hj (Nat.not_lt_zero j)⟩
            · intro _; trivial
        | succ i =>
            simp only [List.getD_cons_succ]
            rw [ih { s with right_only_hold_start := some t0, right_only_hold_armed := false } rfl i (Nat.lt_of_succ_lt_succ hi), forall_lt_cons]
            constructor
            · rintro ⟨ha, -⟩; exact absurd ha (by simp)
            · rintro ⟨-, -, hlt, -⟩
              exfalso
              have := hc.1
              linarith
      · rw [if_neg hc]
        cases i with
        | zero =>
            simp only [List.getD_cons_zero]
            constructor
            · intro hh; exact absurd hh (by simp)
            · rintro ⟨ha, hb, -⟩
              exact absurd ⟨by linarith, ha⟩ hc
        | succ i =>
            simp only [List.getD_cons_succ]
            rw [ih { s with right_only_hold_start := some t0, right_only_hold_armed := s.right_only_hold_armed } rfl i (Nat.lt_of_succ_lt_succ hi), forall_lt_cons]
            constructor
            · rintro ⟨ha, hb, hctx⟩
              refine ⟨ha, hb, ?_, hctx⟩
              by_contra hlt
              exact hc ⟨by linarith, ha⟩
            · rintro ⟨ha, hb, -, hctx⟩
              exact ⟨ha, hb, hctx⟩

lemma right_run_state (θ t0 : ℚ) :
    ∀ (ts : List ℚ) (s : InputState), s.right_only_hold_start = some t0 →
      (right_hold_run θ s ts).1.right_only_hold_start = some t0 ∧
      ((right_hold_run θ s ts).1.right_only_hold_armed = true ↔
        (s.right_only_hold_armed = true ∧
          ∀ j, j < ts.length → ts.getD j 0 < t0 + θ)) := by
  intro ts
  induction ts with
  | nil =>
      intro s hs
      refine ⟨by simp [right_hold_run, hs], ?_⟩
      simp [right_hold_run]
  | cons t ts ih =>
      intro s hs
      simp only [right_hold_run]
      rw [right_step_some s t θ t0 hs]
      by_cases hc : θ ≤ t - t0 ∧ s.right_only_hold_armed = true
      · rw [if_pos hc]
        obtain ⟨h1, h2⟩ := ih { s with right_only_hold_start := some t0, right_only_hold_armed := false } rfl
        refine ⟨h1, ?_⟩
        rw [h2, List.length_cons, forall_lt_cons]
        constructor
        · rintro ⟨ha, -⟩; exact absurd ha (by simp)
        · rintro ⟨-, hlt, -⟩
          exfalso
          have := hc.1
          linarith
      · rw [if_neg hc]
        obtain ⟨h1, h2⟩ := ih { s with right_only_hold_start := some t0, right_only_hold_armed := s.right_only_hold_armed } rfl
        refine ⟨h1, ?_⟩
        rw [h2, List.length_cons, forall_lt_cons]
        constructor
        · rintro ⟨ha, hctx⟩
          refine ⟨ha, ?_, hctx⟩
          by_contra hlt
          exact hc ⟨by linarith, ha⟩
        · rintro ⟨ha, -, hctx⟩
          exact ⟨ha, hctx⟩

lemma right_run_idle_out (θ t0 : ℚ) (ts : List ℚ) (s : InputState)
    (hs : s.right_only_hold_start = none) :
    ∀ i, i < ts.length + 1 →
    ((right_hold_run θ s (t0 :: ts)).2.getD i false = true ↔
      (t0 + θ ≤ (t0 :: ts).getD i 0 ∧
        ∀ j, j < i → (t0 :: ts).getD j 0 < t0 + θ)) := by
  intro i hi
  simp only [right_hold_run]
  rw [right_step_entry s t0 θ hs]
  by_cases hθ : θ ≤ (0 : ℚ)
  · rw [if_pos hθ]
    cases i with
    | zero =>
        simp only [List.getD_cons_zero]
        constructor
        · intro _
          exact ⟨by linarith, fun j hj => absurd hj (Nat.not_lt_zero j)⟩
        · intro _; trivial
    | succ i =>
        simp only [List.getD_cons_succ]
        rw [right_run_out θ t0 ts { s with right_only_hold_start := some t0, right_only_hold_armed := false } rfl i (Nat.lt_of_succ_lt_succ hi),
          forall_lt_cons]
        constructor
        · rintro ⟨ha, -⟩; exact absurd ha (by simp)
        · rintro ⟨-, hlt, -⟩; linarith
  · rw [if_neg hθ]
    cases i with
    | zero =>
        simp only [List.getD_cons_zero]
        constructor
        · intro hh; exact absurd hh (by simp)
        · rintro ⟨hb, -⟩; linarith
    | succ i =>
        simp only [List.getD_cons_succ]
        rw [right_run_out θ t0 ts { s with right_only_hold_start := some t0, right_only_hold_armed := true } rfl i (Nat.lt_of_succ_lt_succ hi),
          forall_lt_cons]
        constructor
        · rintro ⟨-, hb, hctx⟩
          exact ⟨hb, by linarith, hctx⟩
        · rintro ⟨hb, -, hctx⟩
          exact ⟨rfl, hb, hctx⟩

lemma right_run_idle_state (θ t0 : ℚ) (ts : List ℚ) (s : InputState)
    (hs : s.right_only_hold_start = none) :
    (right_hold_run θ s (t0 :: ts)).1.right_only_hold_start = some t0 ∧
    ((right_hold_run θ s (t0 :: ts)).1.right_only_hold_armed = true ↔
      (0 < θ ∧ ∀ j, j < ts.length → ts.getD j 0 < t0 + θ)) := by
  simp only [right_hold_run]
  rw [right_step_entry s t0 θ hs]
  by_cases hθ : θ ≤ (0 : ℚ)
  · rw [if_pos hθ]
    obtain ⟨h1, h2⟩ := right_run_state θ t0 ts { s with right_only_hold_start := some t0, right_only_hold_armed := false } rfl
    refine ⟨h1, ?_⟩
    rw [h2]
    constructor
    · rintro ⟨ha, -⟩; exact absurd ha (by simp)
    · rintro ⟨hpos, -⟩; linarith
  · rw [if_neg hθ]
    obtain ⟨h1, h2⟩ := right_run_state θ t0 ts { s with right_only_hold_start := some t0, right_only_hold_armed := true } rfl
    refine ⟨h1, ?_⟩
    rw [h2]
    constructor
    · rintro ⟨-, hctx⟩; exact ⟨by linarith, hctx⟩
    · rintro ⟨-, hctx⟩; exact ⟨rfl, hctx⟩

lemma right_run_length (θ : ℚ) : ∀ (ts : List ℚ) (s : InputState),
    (right_hold_run θ s ts).2.length = ts.length := by
  intro ts
  induction ts with
  | nil => intro s; rfl
  | cons t ts ih =>
      intro s
      simp only [right_hold_run, List.length_cons]
      rw [ih]

lemma both_step_some (s : InputState) (now θ t0 : ℚ)
    (hs : s.both_hold_start = some t0) :
    handle_both_hold s now true true θ false =
      if θ ≤ now - t0 ∧ s.both_hold_armed = true then
        ({ s with both_hold_start := some t0,
                  both_hold_armed := false }, true)
      else
        ({ s with both_hold_start := some t0,
                  both_hold_armed := s.both_hold_armed }, false) := by
  simp [handle_both_hold, hs]

lemma both_step_entry (s : InputState) (now θ : ℚ)
    (hs : s.both_hold_start = none) :
    handle_both_hold s now true true θ false =
      if θ ≤ 0 then
        ({ s with both_hold_start := some now,
                  both_hold_armed := false }, true)
      else
        ({ s with both_hold_start := some now,
                  both_hold_armed := true }, false) := by
  simp [handle_both_hold, hs, sub_self]

lemma both_step_reset (s : InputState) (now θ : ℚ) (r l go : Bool)
    (h : ¬(l = true ∧ r = true ∧ go = false)) :
    handle_both_hold s now r l θ go =
      ({ s with both_hold_start := none,
                both_hold_armed := true }, false) := by
  by_cases hg : go = true
  · simp [handle_both_hold, hg]
  · have hlr : ¬(l = true ∧ r = true) := by
      intro hx
      exact h ⟨hx.1, hx.2, by simpa using hg⟩
    simp [handle_both_hold, hg, hlr]

lemma both_run_out (θ t0 : ℚ) :
    ∀ (ts : List ℚ) (s : InputState), s.both_hold_start = some t0 →
    ∀ i, i < ts.length →
    ((both_hold_run θ s ts).2.getD i false = true ↔
      (s.both_hold_armed = true ∧ t0 + θ ≤ ts.getD i 0 ∧
        ∀ j, j < i → ts.getD j 0 < t0 + θ)) := by
  intro ts
  induction ts with
  | nil => intro s _ i hi; simp at hi
  | cons t ts ih =>
      intro s hs i hi
      simp only [both_hold_run]
      rw [both_step_some s t θ t0 hs]
      by_cases hc : θ ≤ t - t0 ∧ s.both_hold_armed = true
      · rw [if_pos hc]
        cases i with
        | zero =>
            simp only [List.getD_cons_zero]
            constructor
            · intro _
              exact ⟨hc.2, by linarith [hc.1], fun j hj => absurd hj (Nat.not_lt_zero j)⟩
            · intro _; trivial
        | succ i =>
            simp only [List.getD_cons_succ]
            rw [ih { s with both_hold_start := some t0, both_hold_armed := false } rfl i (Nat.lt_of_succ_lt_succ hi), forall_lt_cons]
            constructor
            · rintro ⟨ha, -⟩; exact absurd ha (by simp)
            · rintro ⟨-, -, hlt, -⟩
              exfalso
              have := hc.1
              linarith
      · rw [if_neg hc]
        cases i with
        | zero =>
            simp only [List.getD_cons_zero]
            constructor
            · intro hh; exact absurd hh (by simp)
            · rintro ⟨ha, hb, -⟩
              exact absurd ⟨by linarith, ha⟩ hc
        | succ i =>
            simp only [List.getD_cons_succ]
            rw [ih { s with both_hold_start := some t0, both_hold_armed := s.both_hold_armed } rfl i (Nat.lt_of_succ_lt_succ hi), forall_lt_cons]
            constructor
            · rintro ⟨ha, hb, hctx⟩
              refine ⟨ha, hb, ?_, hctx⟩
              by_contra hlt
              exact hc ⟨by linarith, ha⟩
            · rintro ⟨ha, hb, -, hctx⟩
              exact ⟨ha, hb, hctx⟩

lemma both_run_state (θ t0 : ℚ) :
    ∀ (ts : List ℚ) (s : InputState), s.both_hold_start = some t0 →
      (both_hold_run θ s ts).1.both_hold_start = some t0 ∧
      ((both_hold_run θ s ts).1.both_hold_armed = true ↔
        (s.both_hold_armed = true ∧
          ∀ j, j < ts.length → ts.getD j 0 < t0 + θ)) := by
  intro ts
  induction ts with
  | nil =>
      intro s hs
      refine ⟨by simp [both_hold_run, hs], ?_⟩
      simp [both_hold_run]
  | cons t ts ih =>
      intro s hs
      simp only [both_hold_run]
      rw [both_step_some s t θ t0 hs]
      by_cases hc : θ ≤ t - t0 ∧ s.both_hold_armed = true
      · rw [if_pos hc]
        obtain ⟨h1, h2⟩ := ih { s with both_hold_start := some t0, both_hold_armed := false } rfl
        refine ⟨h1, ?_⟩
        rw [h2, List.length_cons, forall_lt_cons]
        constructor
        · rintro ⟨ha, -⟩; exact absurd ha (by simp)
        · rintro ⟨-, hlt, -⟩
          exfalso
          have := hc.1
          linarith
      · rw [if_neg hc]
        obtain ⟨h1, h2⟩ := ih { s with both_hold_start := some t0, both_hold_armed := s.both_hold_armed } rfl
        refine ⟨h1, ?_⟩
        rw [h2, List.length_cons, forall_lt_cons]
        constructor
        · rintro ⟨ha, hctx⟩
          refine ⟨ha, ?_, hctx⟩
          by_contra hlt
          exact hc ⟨by linarith, ha⟩
        · rintro ⟨ha, -, hctx⟩
          exact ⟨ha, hctx⟩

lemma both_run_idle_out (θ t0 : ℚ) (ts : List ℚ) (s : InputState)
    (hs : s.both_hold_start = none) :
    ∀ i, i < ts.length + 1 →
    ((both_hold_run θ s (t0 :: ts)).2.getD i false = true ↔
      (t0 + θ ≤ (t0 :: ts).getD i 0 ∧
        ∀ j, j < i → (t0 :: ts).getD j 0 < t0 + θ)) := by
  intro i hi
  simp only [both_hold_run]
  rw [both_step_entry s t0 θ hs]
  by_cases hθ : θ ≤ (0 : ℚ)
  · rw [if_pos hθ]
    cases i with
    | zero =>
        simp only [List.getD_cons_zero]
        constructor
        · intro _
          exact ⟨by linarith, fun j hj => absurd hj (Nat.not_lt_zero j)⟩
        · intro _; trivial
    | succ i =>
        simp only [List.getD_cons_succ]
        rw [both_run_out θ t0 ts { s with both_hold_start := some t0, both_hold_armed := false } rfl i (Nat.lt_of_succ_lt_succ hi),
          forall_lt_cons]
        constructor
        · rintro ⟨ha, -⟩; exact absurd ha (by simp)
        · rintro ⟨-, hlt, -⟩; linarith
  · rw [if_neg hθ]
    cases i with
    | zero =>
        simp only [List.getD_cons_zero]
        constructor
        · intro hh; exact absurd hh (by simp)
        · rintro ⟨hb, -⟩; linarith
    | succ i =>
        simp only [List.getD_cons_succ]
        rw [both_run_out θ t0 ts { s with both_hold_start := some t0, both_hold_armed := true } rfl i (Nat.lt_of_succ_lt_succ hi),
          forall_lt_cons]
        constructor
        · rintro ⟨-, hb, hctx⟩
          exact ⟨hb, by linarith, hctx⟩
        · rintro ⟨hb, -, hctx⟩
          exact ⟨rfl, hb, hctx⟩

lemma both_run_idle_state (θ t0 : ℚ) (ts : List ℚ) (s : InputState)
    (hs : s.both_hold_start = none) :
    (both_hold_run θ s (t0 :: ts)).1.both_hold_start = some t0 ∧
    ((both_hold_run θ s (t0 :: ts)).1.both_hold_armed = true ↔
      (0 < θ ∧ ∀ j, j < ts.length → ts.getD j 0 < t0 + θ)) := by
  simp only [both_hold_run]
  rw [both_step_entry s t0 θ hs]
  by_cases hθ : θ ≤ (0 : ℚ)
  · rw [if_pos hθ]
    obtain ⟨h1, h2⟩ := both_run_state θ t0 ts { s with both_hold_start := some t0, both_hold_armed := false } rfl
    refine ⟨h1, ?_⟩
    rw [h2]
    constructor
    · rintro ⟨ha, -⟩; exact absurd ha (by simp)
    · rintro ⟨hpos, -⟩; linarith
  · rw [if_neg hθ]
    obtain ⟨h1, h2⟩ := both_run_state θ t0 ts { s with both_hold_start := some t0, both_hold_armed := true } rfl
    refine ⟨h1, ?_⟩
    rw [h2]
    constructor
    · rintro ⟨-, hctx⟩; exact ⟨by linarith, hctx⟩
    · rintro ⟨-, hctx⟩; exact ⟨rfl, hctx⟩


lemma both_run_length (θ : ℚ) : ∀ (ts : List ℚ) (s : InputState),
    (both_hold_run θ s ts).2.length = ts.length := by
  intro ts
  induction ts with
  | nil => intro s; rfl
  | cons t ts ih =>
      intro s
      simp only [both_hold_run, List.length_cons]
      rw [ih]

lemma exists_min_nat {P : ℕ → Prop} [DecidablePred P] (h : ∃ i, P i) :
    ∃ i, P i ∧ ∀ j, j < i → ¬ P j :=
  ⟨Nat.find h, Nat.find_spec h, fun j hj => Nat.find_min h hj⟩

lemma right_fire_exists (θ t0 : ℚ) (ts : List ℚ) (s : InputState)
    (hs : s.right_only_hold_start = none)
    (h : ∃ i, i < ts.length + 1 ∧ t0 + θ ≤ (t0 :: ts).getD i 0) :
    ∃ i, i < ts.length + 1 ∧
      (right_hold_run θ s (t0 :: ts)).2.getD i false = true := by
  obtain ⟨i0, ⟨hi0, hge0⟩, hmin⟩ := exists_min_nat h
  refine ⟨i0, hi0, (right_run_idle_out θ t0 ts s hs i0 hi0).mpr ⟨hge0, ?_⟩⟩
  intro j hj
  by_contra hnot
  exact hmin j hj ⟨lt_trans hj hi0, not_lt.mp hnot⟩

lemma both_fire_exists (θ t0 : ℚ) (ts : List ℚ) (s : InputState)
    (hs : s.both_hold_start = none)
    (h : ∃ i, i < ts.length + 1 ∧ t0 + θ ≤ (t0 :: ts).getD i 0) :
    ∃ i, i < ts.length + 1 ∧
      (both_hold_run θ s (t0 :: ts)).2.getD i false = true := by
  obtain ⟨i0, ⟨hi0, hge0⟩, hmin⟩ := exists_min_nat h
  refine ⟨i0, hi0, (both_run_idle_out θ t0 ts s hs i0 hi0).mpr ⟨hge0, ?_⟩⟩
  intro j hj
  by_contra hnot
  exact hmin j hj ⟨lt_trans hj hi0, not_lt.mp hnot⟩

lemma right_at_most_one (θ t0 : ℚ) (ts : List ℚ) (s : InputState)
    (hs : s.right_only_hold_start = none) (i k : ℕ)
    (hi : (right_hold_run θ s (t0 :: ts)).2.getD i false = true)
    (hk : (right_hold_run θ s (t0 :: ts)).2.getD k false = true) : i = k := by
  have hlen := right_run_length θ (t0 :: ts) s
  have hib : i < ts.length + 1 := by
    by_contra hgt
    rw [List.getD_eq_default] at hi
    · exact absurd hi (by simp)
    · rw [hlen]; simpa using hgt
  have hkb : k < ts.length + 1 := by
    by_contra hgt
    rw [List.getD_eq_default] at hk
    · exact absurd hk (by simp)
    · rw [hlen]; simpa using hgt
  obtain ⟨hgei, hctxi⟩ := (right_run_idle_out θ t0 ts s hs i hib).mp hi
  obtain ⟨hgek, hctxk⟩ := (right_run_idle_out θ t0 ts s hs k hkb).mp hk
  rcases lt_trichotomy i k with hlt | heq | hgt
  · have := hctxk i hlt; linarith
  · exact heq
  · have := hctxi k hgt; linarith

lemma both_at_most_one (θ t0 : ℚ) (ts : List ℚ) (s : InputState)
    (hs : s.both_hold_start = none) (i k : ℕ)
    (hi : (both_hold_run θ s (t0 :: ts)).2.getD i false = true)
    (hk : (both_hold_run θ s (t0 :: ts)).2.getD k false = true) : i = k := by
  have hlen := both_run_length θ (t0 :: ts) s
  have hib : i < ts.length + 1 := by
    by_contra hgt
    rw [List.getD_eq_default] at hi
    · exact absurd hi (by simp)
    · rw [hlen]; simpa using hgt
  have hkb : k < ts.length + 1 := by
    by_contra hgt
    rw [List.getD_eq_default] at hk
    · exact absurd hk (by simp)
    · rw [hlen]; simpa using hgt
  obtain ⟨hgei, hctxi⟩ := (both_run_idle_out θ t0 ts s hs i hib).mp hi
  obtain ⟨hgek, hctxk⟩ := (both_run_idle_out θ t0 ts s hs k hkb).mp hk
  rcases lt_trichotomy i k with hlt | heq | hgt
  · have := hctxk i hlt; linarith
  · exact heq
  · have := hctxi k hgt; linarith

/-- C1: for both hold machines, over a continuously-held trigger starting
from an idle hold state the handler fires on frame i exactly when frame
i's elapsed time since the first held frame reaches the threshold and no
earlier frame of the hold did (so a hold that stays below the threshold
never fires, and the fire happens at the first frame past the threshold);
it fires on at most one frame of the hold, and fires on some frame as
soon as some frame of the hold is past the threshold; and a frame on
which the trigger condition is false resets the hold state to idle with
the fire flag false, so a later hold behaves like a fresh one. The
thresholds are RESET_HOLD_SECONDS = 3 for reset and
PLACE_HOLD_SECONDS = 0.35 for place. -/
theorem C1_hold_gesture_machines :
    (∀ (t0 : ℚ) (ts : List ℚ) (s : InputState),
        s.right_only_hold_start = none → ∀ i, i < ts.length + 1 →
        ((right_hold_run RESET_HOLD_SECONDS s (t0 :: ts)).2.getD i false = true ↔
          (t0 + RESET_HOLD_SECONDS ≤ (t0 :: ts).getD i 0 ∧
            ∀ j, j < i → (t0 :: ts).getD j 0 < t0 + RESET_HOLD_SECONDS))) ∧
    (∀ (t0 : ℚ) (ts : List ℚ) (s : InputState),
        s.both_hold_start = none → ∀ i, i < ts.length + 1 →
        ((both_hold_run PLACE_HOLD_SECONDS s (t0 :: ts)).2.getD i false = true ↔
          (t0 + PLACE_HOLD_SECONDS ≤ (t0 :: ts).getD i 0 ∧
            ∀ j, j < i → (t0 :: ts).getD j 0 < t0 + PLACE_HOLD_SECONDS))) ∧
    (∀ (t0 : ℚ) (ts : List ℚ) (s : InputState),
        s.right_only_hold_start = none → ∀ i k,
        (right_hold_run RESET_HOLD_SECONDS s (t0 :: ts)).2.getD i false = true →
        (right_hold_run RESET_HOLD_SECONDS s (t0 :: ts)).2.getD k false = true →
        i = k) ∧
    (∀ (t0 : ℚ) (ts : List ℚ) (s : InputState),
        s.both_hold_start = none → ∀ i k,
        (both_hold_run PLACE_HOLD_SECONDS s (t0 :: ts)).2.getD i false = true →
        (both_hold_run PLACE_HOLD_SECONDS s (t0 :: ts)).2.getD k false = true →
        i = k) ∧
    (∀ (t0 : ℚ) (ts : List ℚ) (s : InputState),
        s.right_only_hold_start = none →
        (∃ i, i < ts.length + 1 ∧
          t0 + RESET_HOLD_SECONDS ≤ (t0 :: ts).getD i 0) →
        ∃ i, i < ts.length + 1 ∧
          (right_hold_run RESET_HOLD_SECONDS s (t0 :: ts)).2.getD i false = true) ∧
    (∀ (t0 : ℚ) (ts : List ℚ) (s : InputState),
        s.both_hold_start = none →
        (∃ i, i < ts.length + 1 ∧
          t0 + PLACE_HOLD_SECONDS ≤ (t0 :: ts).getD i 0) →
        ∃ i, i < ts.length + 1 ∧
          (both_hold_run PLACE_HOLD_SECONDS s (t0 :: ts)).2.getD i false = true) ∧
    (∀ (s : InputState) (now : ℚ) (r l : Bool), ¬(r = true ∧ l = false) →
        handle_right_only_hold s now r l RESET_HOLD_SECONDS =
          ({ s with right_only_hold_start := none,
                    right_only_hold_armed := true }, false)) ∧
    (∀ (s : InputState) (now : ℚ) (r l go : Bool),
        ¬(l = true ∧ r = true ∧ go = false) →
        handle_both_hold s now r l PLACE_HOLD_SECONDS go =
          ({ s with both_hold_start := none,
                    both_hold_armed := true }, false)) := by
  refine ⟨fun t0 ts s hs => right_run_idle_out RESET_HOLD_SECONDS t0 ts s hs,
    fun t0 ts s hs => both_run_idle_out PLACE_HOLD_SECONDS t0 ts s hs,
    fun t0 ts s hs i k hi hk =>
      right_at_most_one RESET_HOLD_SECONDS t0 ts s hs i k hi hk,
    fun t0 ts s hs i k hi hk =>
      both_at_most_one PLACE_HOLD_SECONDS t0 ts s hs i k hi hk,
    fun t0 ts s hs h => right_fire_exists RESET_HOLD_SECONDS t0 ts s hs h,
    fun t0 ts s hs h => both_fire_exists PLACE_HOLD_SECONDS t0 ts s hs h,
    fun s now r l h => right_step_reset s now RESET_HOLD_SECONDS r l h,
    fun s now r l go h => both_step_reset s now PLACE_HOLD_SECONDS r l go h⟩

/-- C1 witness: for the reset machine held from time 0 with frames at
0, 1, 2, 3 seconds, the 3-second threshold is reached exactly on the last
frame, which fires. -/
theorem C1_hold_gesture_machines_witness :
    (({} : InputState).right_only_hold_start = none ∧ 3 < 3 + 1 ∧
      0 + RESET_HOLD_SECONDS ≤ ((0 : ℚ) :: [1, 2, 3]).getD 3 0 ∧
      (∀ j, j < 3 → ((0 : ℚ) :: [1, 2, 3]).getD j 0 < 0 + RESET_HOLD_SECONDS)) ∧
    (right_hold_run RESET_HOLD_SECONDS {} ((0 : ℚ) :: [1, 2, 3])).2.getD 3 false =
      true := by
  have h1 : (0 : ℚ) + RESET_HOLD_SECONDS ≤ ((0 : ℚ) :: [1, 2, 3]).getD 3 0 := by
    norm_num [RESET_HOLD_SECONDS]
  have h2 : ∀ j, j < 3 → ((0 : ℚ) :: [1, 2, 3]).getD j 0 < 0 + RESET_HOLD_SECONDS := by
    intro j hj
    interval_cases j <;> norm_num [RESET_HOLD_SECONDS]
  refine ⟨⟨rfl, by omega, h1, h2⟩, ?_⟩
  exact (C1_hold_gesture_machines.1 0 [1, 2, 3] {} rfl 3 (by simp)).mpr ⟨h1, h2⟩

lemma right_armed_iff_no_fire (θ t0 : ℚ) (ts : List ℚ) (s : InputState)
    (hs : s.right_only_hold_start = none) :
    ((right_hold_run θ s (t0 :: ts)).1.right_only_hold_armed = true ↔
      ∀ i, (right_hold_run θ s (t0 :: ts)).2.getD i false = false) := by
  obtain ⟨h1, h2⟩ := right_run_idle_state θ t0 ts s hs
  rw [h2]
  constructor
  · rintro ⟨hθpos, hall⟩ i
    rcases lt_or_ge i (ts.length + 1) with hi | hi
    · cases hout : (right_hold_run θ s (t0 :: ts)).2.getD i false with
      | false => rfl
      | true =>
          exfalso
          obtain ⟨hge, -⟩ := (right_run_idle_out θ t0 ts s hs i hi).mp hout
          cases i with
          | zero => simp only [List.getD_cons_zero] at hge; linarith
          | succ j =>
              have hjlt := hall j (by omega)
              simp only [List.getD_cons_succ] at hge
              linarith
    · refine List.getD_eq_default _ _ ?_
      rw [right_run_length]
      simpa using hi
  · intro hall
    constructor
    · by_contra hle
      push_neg at hle
      have h0 := (right_run_idle_out θ t0 ts s hs 0 (by omega)).mpr
        ⟨by simp only [List.getD_cons_zero]; linarith,
         fun j hj => absurd hj (Nat.not_lt_zero j)⟩
      rw [hall 0] at h0
      exact absurd h0 (by simp)
    · intro j hj
      by_contra hnot
      push_neg at hnot
      obtain ⟨i, hib, hfire⟩ := right_fire_exists θ t0 ts s hs
        ⟨j + 1, by omega, by simpa using hnot⟩
      rw [hall i] at hfire
      exact absurd hfire (by simp)

lemma both_armed_iff_no_fire (θ t0 : ℚ) (ts : List ℚ) (s : InputState)
    (hs : s.both_hold_start = none) :
    ((both_hold_run θ s (t0 :: ts)).1.both_hold_armed = true ↔
      ∀ i, (both_hold_run θ s (t0 :: ts)).2.getD i false = false) := by
  obtain ⟨h1, h2⟩ := both_run_idle_state θ t0 ts s hs
  rw [h2]
  constructor
  · rintro ⟨hθpos, hall⟩ i
    rcases lt_or_ge i (ts.length + 1) with hi | hi
    · cases hout : (both_hold_run θ s (t0 :: ts)).2.getD i false with
      | false => rfl
      | true =>
          exfalso
          obtain ⟨hge, -⟩ := (both_run_idle_out θ t0 ts s hs i hi).mp hout
          cases i with
          | zero => simp only [List.getD_cons_zero] at hge; linarith
          | succ j =>
              have hjlt := hall j (by omega)
              simp only [List.getD_cons_succ] at hge
              linarith
    · refine List.getD_eq_default _ _ ?_
      rw [both_run_length]
      simpa using hi
  · intro hall
    constructor
    · by_contra hle
      push_neg at hle
      have h0 := (both_run_idle_out θ t0 ts s hs 0 (by omega)).mpr
        ⟨by simp only [List.getD_cons_zero]; linarith,
         fun j hj => absurd hj (Nat.not_lt_zero j)⟩
      rw [hall 0] at h0
      exact absurd h0 (by simp)
    · intro j hj
      by_contra hnot
      push_neg at hnot
      obtain ⟨i, hib, hfire⟩ := both_fire_exists θ t0 ts s hs
        ⟨j + 1, by omega, by simpa using hnot⟩
      rw [hall i] at hfire
      exact absurd hfire (by simp)

/-- C8: after every per-frame update of either hold machine the stored
start timestamp is none exactly when that machine's triggering condition
(right-only closed for reset; both closed with the game not over for
place) was false on that frame, in which case the armed flag is also
reset to true; and over a continuously-held trigger from idle, the armed
flag remains true exactly as long as the gesture has not fired during the
current hold. -/
theorem C8_hold_state_invariants :
    (∀ (s : InputState) (now θ : ℚ) (r l : Bool),
        ((handle_right_only_hold s now r l θ).1.right_only_hold_start = none ↔
          ¬(r = true ∧ l = false))) ∧
    (∀ (s : InputState) (now θ : ℚ) (r l go : Bool),
        ((handle_both_hold s now r l θ go).1.both_hold_start = none ↔
          ¬(l = true ∧ r = true ∧ go = false))) ∧
    (∀ (s : InputState) (now θ : ℚ) (r l : Bool), ¬(r = true ∧ l = false) →
        (handle_right_only_hold s now r l θ).1.right_only_hold_armed = true) ∧
    (∀ (s : InputState) (now θ : ℚ) (r l go : Bool),
        ¬(l = true ∧ r = true ∧ go = false) →
        (handle_both_hold s now r l θ go).1.both_hold_armed = true) ∧
    (∀ (θ t0 : ℚ) (ts : List ℚ) (s : InputState),
        s.right_only_hold_start = none →
        ((right_hold_run θ s (t0 :: ts)).1.right_only_hold_armed = true ↔
          ∀ i, (right_hold_run θ s (t0 :: ts)).2.getD i false = false)) ∧
    (∀ (θ t0 : ℚ) (ts : List ℚ) (s : InputState),
        s.both_hold_start = none →
        ((both_hold_run θ s (t0 :: ts)).1.both_hold_armed = true ↔
          ∀ i, (both_hold_run θ s (t0 :: ts)).2.getD i false = false)) := by
  refine ⟨?_, ?_, ?_, ?_,
    fun θ t0 ts s hs => right_armed_iff_no_fire θ t0 ts s hs,
    fun θ t0 ts s hs => both_armed_iff_no_fire θ t0 ts s hs⟩
  · intro s now θ r l
    by_cases hcond : r = true ∧ l = false
    · obtain ⟨rfl, rfl⟩ := hcond
      cases hs : s.right_only_hold_start with
      | none => rw [right_step_entry s now θ hs]; split_ifs <;> simp
      | some t0 => rw [right_step_some s now θ t0 hs]; split_ifs <;> simp
    · rw [right_step_reset s now θ r l hcond]; simp [hcond]
  · intro s now θ r l go
    by_cases hcond : l = true ∧ r = true ∧ go = false
    · obtain ⟨rfl, rfl, rfl⟩ := hcond
      cases hs : s.both_hold_start with
      | none => rw [both_step_entry s now θ hs]; split_ifs <;> simp
      | some t0 => rw [both_step_some s now θ t0 hs]; split_ifs <;> simp
    · rw [both_step_reset s now θ r l go hcond]; simp [hcond]
  · intro s now θ r l h
    rw [right_step_reset s now θ r l h]
  · intro s now θ r l go h
    rw [both_step_reset s now θ r l go h]

/-- C8 witness: a frame on which the right-only condition is false leaves
the reset machine disarmed-free: start cleared and armed true. -/
theorem C8_hold_state_invariants_witness :
    (¬((false : Bool) = true ∧ (false : Bool) = false)) ∧
    (handle_right_only_hold {} 0 false false 3).1.right_only_hold_armed = true := by
  have h : ¬((false : Bool) = true ∧ (false : Bool) = false) := by simp
  exact ⟨h, C8_hold_state_invariants.2.2.1 {} 0 3 false false h⟩

lemma getD_drop_pair (L : List (ℤ × ℤ)) (n m : ℕ) (d : ℤ × ℤ) :
    (L.drop n).getD m d = L.getD (n + m) d := by
  rw [List.getD_eq_getD_get?, List.getD_eq_getD_get?, List.get?_drop]

lemma getD_take_pair (L : List (ℤ × ℤ)) (k j : ℕ) (d : ℤ × ℤ) (h : j < k) :
    (L.take k).getD j d = L.getD j d := by
  rw [List.getD_eq_getD_get?, List.getD_eq_getD_get?, List.get?_take h]

lemma twoNeutral_append (P : List (ℤ × ℤ)) (f : ℤ × ℤ) :
    twoNeutral P → twoNeutral (P ++ [f]) := by
  rintro ⟨j, hj, h1, h2⟩
  refine ⟨j, by simp; omega, ?_, ?_⟩
  · rw [List.getD_append _ _ _ _ (by omega)]; exact h1
  · rw [List.getD_append _ _ _ _ (by omega)]; exact h2

lemma twoNeutral_end (l : List (ℤ × ℤ)) :
    twoNeutral ((l ++ [((0 : ℤ), (0 : ℤ))]) ++ [((0 : ℤ), (0 : ℤ))]) := by
  have hre : (l ++ [((0 : ℤ), (0 : ℤ))]) ++ [((0 : ℤ), (0 : ℤ))] =
      l ++ [((0 : ℤ), (0 : ℤ)), ((0 : ℤ), (0 : ℤ))] := by simp
  rw [hre]
  refine ⟨l.length, by simp, ?_, ?_⟩
  · rw [List.getD_append_right _ _ _ _ (le_refl _)]
    simp
  · rw [List.getD_append_right _ _ _ _ (by omega)]
    have h1 : l.length + 1 - l.length = 1 := by omega
    rw [h1]
    rfl

lemma loop_step_zero (s : InputState) :
    loop_move_step s 0 0 =
      ({ s with neutral_run := s.neutral_run + 1,
                move_armed := if NEUTRAL_FRAMES_REQUIRED ≤ s.neutral_run + 1 then
                    true
                  else s.move_armed }, false) := by
  simp [loop_move_step, update_neutral_and_arm, consume_move_arm_if_moved]

lemma loop_step_nonzero (s : InputState) (mx my : ℤ) (h : ¬(mx = 0 ∧ my = 0)) :
    loop_move_step s mx my =
      ({ s with neutral_run := 0,
                move_armed := if (s.move_armed &&
                    (decide (mx = -1) || decide (mx = 1) || decide (my = 1) ||
                      decide (my = -1))) = true then false else s.move_armed },
       s.move_armed &&
         (decide (mx = -1) || decide (mx = 1) || decide (my = 1) ||
           decide (my = -1))) := by
  simp only [loop_move_step, update_neutral_and_arm, consume_move_arm_if_moved,
    if_neg h]
  split_ifs <;> rfl

lemma loop_run_length : ∀ (L : List (ℤ × ℤ)) (s : InputState),
    (loop_move_run s L).2.length = L.length := by
  intro L
  induction L with
  | nil => intro s; rfl
  | cons f L ih =>
      intro s
      simp only [loop_move_run, List.length_cons]
      rw [ih]

lemma loop_run_append : ∀ (L1 L2 : List (ℤ × ℤ)) (s : InputState),
    loop_move_run s (L1 ++ L2) =
      ((loop_move_run (loop_move_run s L1).1 L2).1,
       (loop_move_run s L1).2 ++ (loop_move_run (loop_move_run s L1).1 L2).2) := by
  intro L1
  induction L1 with
  | nil => intro L2 s; rfl
  | cons f L1 ih =>
      intro L2 s
      simp only [List.cons_append, loop_move_run, List.append_eq]
      rw [ih]

lemma loop_run_inv : ∀ (L : List (ℤ × ℤ)) (s : InputState) (P : List (ℤ × ℤ)),
    (s.move_armed = true → twoNeutral P) →
    (2 ≤ s.neutral_run → twoNeutral P) →
    (1 ≤ s.neutral_run → ∃ l, P = l ++ [((0 : ℤ), (0 : ℤ))]) →
    (((loop_move_run s L).1.move_armed = true → twoNeutral (P ++ L)) ∧
     (∀ k, k < L.length → (loop_move_run s L).2.getD k false = true →
        twoNeutral (P ++ L.take k))) := by
  intro L
  induction L with
  | nil =>
      intro s P hA _ _
      refine ⟨fun h => by simpa using hA h, fun k hk => by simp at hk⟩
  | cons f L ih =>
      intro s P hA hR hE
      by_cases hf : f.1 = 0 ∧ f.2 = 0
      · -- neutral frame
        have hf' : f = ((0 : ℤ), (0 : ℤ)) := Prod.ext hf.1 hf.2
        subst hf'
        have hstep := loop_step_zero s
        have hAz : (if NEUTRAL_FRAMES_REQUIRED ≤ s.neutral_run + 1 then true
            else s.move_armed) = true → twoNeutral (P ++ [((0 : ℤ), (0 : ℤ))]) := by
          intro hz
          by_cases hcnt : NEUTRAL_FRAMES_REQUIRED ≤ s.neutral_run + 1
          · obtain ⟨l, rfl⟩ := hE (by simp [NEUTRAL_FRAMES_REQUIRED] at hcnt; omega)
            exact twoNeutral_end l
          · rw [if_neg hcnt] at hz
            exact twoNeutral_append P _ (hA hz)
        have hRz : 2 ≤ s.neutral_run + 1 → twoNeutral (P ++ [((0 : ℤ), (0 : ℤ))]) := by
          intro hz
          obtain ⟨l, rfl⟩ := hE (by omega)
          exact twoNeutral_end l
        have hEz : 1 ≤ s.neutral_run + 1 →
            ∃ l, P ++ [((0 : ℤ), (0 : ℤ))] = l ++ [((0 : ℤ), (0 : ℤ))] :=
          fun _ => ⟨P, rfl⟩
        obtain ⟨iha, ihk⟩ := ih (loop_move_step s 0 0).1 (P ++ [((0 : ℤ), (0 : ℤ))])
          (by rw [hstep]; exact hAz) (by rw [hstep]; exact hRz)
          (by rw [hstep]; exact hEz)
        constructor
        · intro harm
          have h2 : twoNeutral ((P ++ [((0 : ℤ), (0 : ℤ))]) ++ L) := by
            apply iha
            simpa only [loop_move_run] using harm
          simpa [List.append_assoc] using h2
        · intro k hk hout
          cases k with
          | zero =>
              exfalso
              simp only [loop_move_run, hstep, List.getD_cons_zero] at hout
              exact absurd hout (by simp)
          | succ k =>
              have hout' : (loop_move_run (loop_move_step s 0 0).1 L).2.getD k
                  false = true := by
                simpa only [loop_move_run, List.getD_cons_succ] using hout
              have h2 := ihk k (by simpa using hk) hout'
              simpa [List.append_assoc, List.take_succ_cons] using h2
      · -- non-neutral frame
        have hstep := loop_step_nonzero s f.1 f.2 hf
        have hAn : (if (s.move_armed && (decide (f.1 = -1) || decide (f.1 = 1) ||
              decide (f.2 = 1) || decide (f.2 = -1))) = true then false
            else s.move_armed) = true → twoNeutral (P ++ [f]) := by
          intro hz
          by_cases hmv : (s.move_armed && (decide (f.1 = -1) || decide (f.1 = 1) ||
              decide (f.2 = 1) || decide (f.2 = -1))) = true
          · rw [if_pos hmv] at hz
            exact absurd hz (by simp)
          · rw [if_neg hmv] at hz
            exact twoNeutral_append P f (hA hz)
        obtain ⟨iha, ihk⟩ := ih (loop_move_step s f.1 f.2).1 (P ++ [f])
          (by rw [hstep]; exact hAn)
          (by rw [hstep]; intro hz; simp at hz)
          (by rw [hstep]; intro hz; simp at hz)
        constructor
        · intro harm
          have h2 : twoNeutral ((P ++ [f]) ++ L) := by
            apply iha
            simpa only [loop_move_run] using harm
          simpa [List.append_assoc] using h2
        · intro k hk hout
          cases k with
          | zero =>
              -- a move on this frame: the arm must already have been set
              simp only [loop_move_run, hstep, List.getD_cons_zero] at hout
              have harm : s.move_armed = true := by
                rcases Bool.and_eq_true_iff.mp hout with ⟨h1, -⟩
                exact h1
              simpa using hA harm
          | succ k =>
              have hout' : (loop_move_run (loop_move_step s f.1 f.2).1 L).2.getD k
                  false = true := by
                simpa only [loop_move_run, List.getD_cons_succ] using hout
              have h2 := ihk k (by simpa using hk) hout'
              simpa [List.append_assoc, List.take_succ_cons] using h2

lemma loop_step_moved (s : InputState) (mx my : ℤ)
    (h : (loop_move_step s mx my).2 = true) :
    ¬(mx = 0 ∧ my = 0) ∧ (loop_move_step s mx my).1.move_armed = false ∧
      (loop_move_step s mx my).1.neutral_run = 0 ∧ s.move_armed = true := by
  by_cases hz : mx = 0 ∧ my = 0
  · obtain ⟨rfl, rfl⟩ := hz
    rw [loop_step_zero] at h
    exact absurd h (by simp)
  · have hstep := loop_step_nonzero s mx my hz
    rw [hstep] at h
    rw [hstep]
    have h2 : (s.move_armed && (decide (mx = -1) || decide (mx = 1) ||
        decide (my = 1) || decide (my = -1))) = true := h
    refine ⟨hz, ?_, rfl, ?_⟩
    · show (if (s.move_armed && (decide (mx = -1) || decide (mx = 1) ||
          decide (my = 1) || decide (my = -1))) = true then false
        else s.move_armed) = false
      rw [if_pos h2]
    · rcases Bool.and_eq_true_iff.mp h2 with ⟨h1, -⟩
      exact h1

lemma loop_moves_need_neutral (s : InputState) (L : List (ℤ × ℤ)) (k : ℕ)
    (hA : s.move_armed = false) (hR : s.neutral_run = 0) (hk : k < L.length)
    (hout : (loop_move_run s L).2.getD k false = true) :
    ∃ j, j + 1 < k ∧ L.getD j (1, 1) = (0, 0) ∧
      L.getD (j + 1) (1, 1) = (0, 0) := by
  have hinv := (loop_run_inv L s []
    (fun h => absurd h (by simp [hA]))
    (fun h => by rw [hR] at h; exact absurd h (by omega))
    (fun h => by rw [hR] at h; exact absurd h (by omega))).2 k hk hout
  rw [List.nil_append] at hinv
  simp only [twoNeutral] at hinv
  obtain ⟨j, hj, h1, h2⟩ := hinv
  have hmin : (L.take k).length = min k L.length := List.length_take _ _
  refine ⟨j, by omega, ?_, ?_⟩
  · rw [← getD_take_pair L k j _ (by omega)]
    exact h1
  · rw [← getD_take_pair L k (j + 1) _ (by omega)]
    exact h2

lemma loop_armed_needs_neutral (s : InputState) (L : List (ℤ × ℤ))
    (hA : s.move_armed = false) (hR : s.neutral_run = 0)
    (harm : (loop_move_run s L).1.move_armed = true) : twoNeutral L := by
  have hinv := (loop_run_inv L s []
    (fun h => absurd h (by simp [hA]))
    (fun h => by rw [hR] at h; exact absurd h (by omega))
    (fun h => by rw [hR] at h; exact absurd h (by omega))).1 harm
  simpa using hinv

lemma loop_between_moves : ∀ (L : List (ℤ × ℤ)) (s : InputState) (i k : ℕ),
    i < k →
    (loop_move_run s L).2.getD i false = true →
    (loop_move_run s L).2.getD k false = true →
    ∃ j, i < j ∧ j + 1 < k ∧ L.getD j (1, 1) = (0, 0) ∧
      L.getD (j + 1) (1, 1) = (0, 0) := by
  intro L
  induction L with
  | nil =>
      intro s i k hik hi hk
      exfalso
      rw [List.getD_eq_default] at hi
      · exact absurd hi (by simp)
      · simp [loop_move_run]
  | cons f L ih =>
      intro s i k hik hi hk
      cases k with
      | zero => omega
      | succ k =>
          have hkout : (loop_move_run (loop_move_step s f.1 f.2).1 L).2.getD k
              false = true := by
            simpa only [loop_move_run, List.getD_cons_succ] using hk
          cases i with
          | zero =>
              have hiout : (loop_move_step s f.1 f.2).2 = true := by
                simpa only [loop_move_run, List.getD_cons_zero] using hi
              obtain ⟨-, hA1, hR1, -⟩ := loop_step_moved s f.1 f.2 hiout
              have hklen : k < L.length := by
                by_contra hge
                rw [List.getD_eq_default] at hkout
                · exact absurd hkout (by simp)
                · rw [loop_run_length]; omega
              obtain ⟨j, hj, h1, h2⟩ :=
                loop_moves_need_neutral _ L k hA1 hR1 hklen hkout
              refine ⟨j + 1, by omega, by omega, ?_, ?_⟩
              · simpa only [List.getD_cons_succ] using h1
              · simpa only [List.getD_cons_succ] using h2
          | succ i =>
              have hiout : (loop_move_run (loop_move_step s f.1 f.2).1 L).2.getD i
                  false = true := by
                simpa only [loop_move_run, List.getD_cons_succ] using hi
              obtain ⟨j, hj1, hj2, h1, h2⟩ := ih _ i k (by omega) hiout hkout
              refine ⟨j + 1, by omega, by omega, ?_, ?_⟩
              · simpa only [List.getD_cons_succ] using h1
              · simpa only [List.getD_cons_succ] using h2

/-- C10: in the control loop's movement block, a consumed cursor move
leaves the state disarmed with a zero neutral run; any frame with a
nonzero delta resets the neutral-run counter; from a consumed state the
arm, and hence any later move, can only come after two consecutive
all-zero frames; and between any two executed cursor moves there are two
consecutive neutral frames. -/
theorem C10_cursor_move_arming :
    (∀ (s : InputState) (mx my : ℤ),
        (loop_move_step s mx my).2 = true →
        (¬(mx = 0 ∧ my = 0) ∧ (loop_move_step s mx my).1.move_armed = false ∧
          (loop_move_step s mx my).1.neutral_run = 0)) ∧
    (∀ (s : InputState) (mx my : ℤ), ¬(mx = 0 ∧ my = 0) →
        (update_neutral_and_arm s mx my NEUTRAL_FRAMES_REQUIRED).neutral_run = 0) ∧
    (∀ (s : InputState) (L : List (ℤ × ℤ)),
        s.move_armed = false → s.neutral_run = 0 →
        (loop_move_run s L).1.move_armed = true → twoNeutral L) ∧
    (∀ (s : InputState) (L : List (ℤ × ℤ)) (k : ℕ),
        s.move_armed = false → s.neutral_run = 0 → k < L.length →
        (loop_move_run s L).2.getD k false = true →
        ∃ j, j + 1 < k ∧ L.getD j (1, 1) = (0, 0) ∧
          L.getD (j + 1) (1, 1) = (0, 0)) ∧
    (∀ (s : InputState) (L : List (ℤ × ℤ)) (i k : ℕ), i < k →
        (loop_move_run s L).2.getD i false = true →
        (loop_move_run s L).2.getD k false = true →
        ∃ j, i < j ∧ j + 1 < k ∧ L.getD j (1, 1) = (0, 0) ∧
          L.getD (j + 1) (1, 1) = (0, 0)) := by
  refine ⟨?_, ?_, ?_, ?_, ?_⟩
  · intro s mx my h
    obtain ⟨h1, h2, h3, -⟩ := loop_step_moved s mx my h
    exact ⟨h1, h2, h3⟩
  · intro s mx my h
    simp [update_neutral_and_arm, h]
  · intro s L hA hR harm
    exact loop_armed_needs_neutral s L hA hR harm
  · intro s L k hA hR hk hout
    exact loop_moves_need_neutral s L k hA hR hk hout
  · intro s L i k hik hi hk
    exact loop_between_moves L s i k hik hi hk

/-- C10 witness: starting disarmed, two neutral frames re-arm the loop and
the third frame executes a move; the move indeed has two consecutive
neutral frames before it. -/
theorem C10_cursor_move_arming_witness :
    (({ move_armed := false } : InputState).move_armed = false ∧
     ({ move_armed := false } : InputState).neutral_run = 0 ∧
     2 < ([((0 : ℤ), (0 : ℤ)), (0, 0), (1, 0)] : List (ℤ × ℤ)).length ∧
     (loop_move_run { move_armed := false }
        [((0 : ℤ), (0 : ℤ)), (0, 0), (1, 0)]).2.getD 2 false = true) ∧
    ∃ j, j + 1 < 2 ∧
      ([((0 : ℤ), (0 : ℤ)), (0, 0), (1, 0)] : List (ℤ × ℤ)).getD j (1, 1) = (0, 0) ∧
      ([((0 : ℤ), (0 : ℤ)), (0, 0), (1, 0)] : List (ℤ × ℤ)).getD (j + 1) (1, 1) =
        (0, 0) := by
  have h4 : (loop_move_run { move_armed := false }
      [((0 : ℤ), (0 : ℤ)), (0, 0), (1, 0)]).2.getD 2 false = true := by decide
  refine ⟨⟨rfl, rfl, by decide, h4⟩, ?_⟩
  exact C10_cursor_move_arming.2.2.2.1 { move_armed := false } _ 2 rfl rfl
    (by decide) h4
